import Mathlib

/-!
Verification of the task identifier resolution and predicate filter engine
(`src/cli/src/invocation/filter.rs`) against its design specification.

The Rust code is shallowly embedded: the external replica (task store) is a
record of `Except`-returning read operations, tasks are records of a textual
UUID, a status and a tag list, and the resolver `filtered_tasks` together
with the predicate evaluator `match_task` are translated loop-by-loop into
structurally recursive Lean functions threading errors through `Except`.
-/

namespace TC

/-- The textual form of a task UUID (Rust `Uuid`, compared and
prefix-matched through its `to_string()` rendering in the filter code). -/
abbrev Uuid := String

/-- Task status.  The filter code never inspects it; it is carried so that
status-independence claims are statable. -/
inductive Status where
  | pending
  | completed
  | deleted
  deriving DecidableEq, Repr

/-- A task as the filter code observes it: its UUID (`get_uuid`), its status
and its set of tags (`has_tag`). -/
structure Task where
  uuid : Uuid
  status : Status
  tags : List String
  deriving DecidableEq, Repr

/-- Rust `Task::has_tag`: membership in the task's tag set. -/
def Task.has_tag (t : Task) (tag : String) : Bool :=
  t.tags.contains tag

/-- `argparse::TaskId`: a full UUID, a textual UUID prefix, or a 1-based
working-set index. -/
inductive TaskId where
  | WorkingSetId : Nat → TaskId
  | PartialUuid : String → TaskId
  | Uuid : String → TaskId
  deriving DecidableEq, Repr

/-- `argparse::Universe`: the candidate space of a filter. -/
inductive Universe where
  | IdList : List TaskId → Universe
  | AllTasks : Universe
  | PendingTasks : Universe
  deriving DecidableEq, Repr

/-- `argparse::Condition`: a require/forbid tag condition, holding the raw
(unvalidated) tag string. -/
inductive Condition where
  | HasTag : String → Condition
  | NoTag : String → Condition
  deriving DecidableEq, Repr

/-- The raw tag string carried by a condition. -/
def condTag : Condition → String
  | .HasTag s => s
  | .NoTag s => s

/-- `argparse::Filter`: a universe and a conjunction of conditions. -/
structure Filter where
  univ : Universe
  conditions : List Condition
  deriving DecidableEq, Repr

/-- An opaque store-level error (I/O, corruption, ...), propagated verbatim. -/
structure StoreError where
  code : Nat
  deriving DecidableEq, Repr

/-- An observable failure of the resolver: either a store error propagated
from a replica call, or a process abort.  `crash s` models the `unwrap()`
panic in `match_task` on an invalid tag string `s` (and the `unreachable!()`
arm of the direct-fetch branch). -/
inductive CliError where
  | store : StoreError → CliError
  | crash : String → CliError
  deriving DecidableEq, Repr

/-- The replica (task store) collaborator, §6 of the spec: five fallible read
operations.  `all_tasks` models the drained `HashMap<Uuid, Task>` as an
association list; `working_set` is the ordered, sparse slot view. -/
structure Replica where
  all_tasks : Except StoreError (List (Uuid × Task))
  working_set : Except StoreError (List (Option Task))
  get_task : Uuid → Except StoreError (Option Task)
  get_working_set_task : Nat → Except StoreError (Option Task)
  get_working_set_index : Uuid → Except StoreError (Option Nat)

/-- Models Rust `str::starts_with`: exact, case-sensitive character-prefix
comparison, no normalization. -/
def strStartsWith (s pre : String) : Bool :=
  pre.data.isPrefixOf s.data

/-- Modelled from the spec: tag-string validation lives outside this core
(`Tag: TryFrom<&String>` of the taskchampion library, not under `src/`);
per §1 only its pass/fail outcome matters here, so it is abstracted as a
boolean predicate on raw tag strings, passed as a parameter `vt`. -/
def tagTryInto (vt : String → Bool) (s : String) : Except CliError String :=
  if vt s then .ok s else .error (.crash s)

/-- The condition loop of `match_task`: iterate the condition sequence in
order; convert each raw tag (the conversion models the `unwrap()` as a
`crash` error), fail fast with `ok false` on the first failing condition,
`ok true` when the sequence is exhausted. -/
def match_task_conds (vt : String → Bool) (task : Task) :
    List Condition → Except CliError Bool
  | [] => .ok true
  | c :: rest =>
    match c with
    | .HasTag s =>
      match tagTryInto vt s with
      | .error e => .error e
      | .ok tag =>
        if !(task.has_tag tag) then .ok false
        else match_task_conds vt task rest
    | .NoTag s =>
      match tagTryInto vt s with
      | .error e => .error e
      | .ok tag =>
        if task.has_tag tag then .ok false
        else match_task_conds vt task rest

/-- Rust `match_task(filter, task)`. -/
def match_task (vt : String → Bool) (f : Filter) (task : Task) :
    Except CliError Bool :=
  match_task_conds vt task f.conditions

/-- Rust helper `is_partial_uuid` inside `filtered_tasks`. -/
def is_partial_uuid : TaskId → Bool
  | .PartialUuid _ => true
  | _ => false

/-- The identifier test of the scan-and-match branch, for one task id
against the map key `uuid` of the candidate task. -/
def scanIdMatches (rep : Replica) (uuid : Uuid) :
    TaskId → Except CliError Bool
  | .WorkingSetId i =>
    match rep.get_working_set_index uuid with
    | .error e => .error (.store e)
    | .ok r => .ok (r == some i)
  | .PartialUuid pre => .ok (strStartsWith uuid pre)
  | .Uuid u => .ok (u == uuid)

/-- The inner id loop of the scan-and-match branch, for one candidate task:
try each id in order; on a match, run `match_task`; a passing match yields
the task (`continue 'task` in the source), a failing match moves on to the
next id. -/
def scanIds (vt : String → Bool) (rep : Replica) (conds : List Condition)
    (uuid : Uuid) (task : Task) : List TaskId → Except CliError (Option Task)
  | [] => .ok none
  | id :: rest =>
    match scanIdMatches rep uuid id with
    | .error e => .error e
    | .ok true =>
      match match_task_conds vt task conds with
      | .error e => .error e
      | .ok true => .ok (some task)
      | .ok false => scanIds vt rep conds uuid task rest
    | .ok false => scanIds vt rep conds uuid task rest

/-- The outer task loop of the scan-and-match branch: one pass over the
drained task map, collecting at most one occurrence of each candidate. -/
def scanTasks (vt : String → Bool) (rep : Replica) (ids : List TaskId)
    (conds : List Condition) :
    List (Uuid × Task) → Except CliError (List Task)
  | [] => .ok []
  | (uuid, task) :: rest =>
    match scanIds vt rep conds uuid task ids with
    | .error e => .error e
    | .ok none => scanTasks vt rep ids conds rest
    | .ok (some t) =>
      match scanTasks vt rep ids conds rest with
      | .error e => .error e
      | .ok l => .ok (t :: l)

/-- The point lookup of the direct-fetch branch, for one id: positional
lookup for `WorkingSetId`, exact lookup for `Uuid`; the `PartialUuid` arm
is the source's `unreachable!()` (that branch is only taken when no id is
partial). -/
def directFetchOne (rep : Replica) : TaskId → Except CliError (Option Task)
  | .WorkingSetId i =>
    match rep.get_working_set_task i with
    | .error e => .error (.store e)
    | .ok r => .ok r
  | .PartialUuid _ => .error (CliError.crash "unreachable")
  | .Uuid u =>
    match rep.get_task u with
    | .error e => .error (.store e)
    | .ok r => .ok r

/-- The direct-fetch branch: resolve each id by a point lookup, skip ids
that resolve to nothing, and track seen UUIDs to deduplicate. -/
def directFetch (vt : String → Bool) (rep : Replica) (conds : List Condition)
    (seen : List Uuid) : List TaskId → Except CliError (List Task)
  | [] => .ok []
  | id :: rest =>
    match directFetchOne rep id with
    | .error e => .error e
    | .ok none => directFetch vt rep conds seen rest
    | .ok (some task) =>
      if seen.contains task.uuid then directFetch vt rep conds seen rest
      else
        match match_task_conds vt task conds with
        | .error e => .error e
        | .ok true =>
          match directFetch vt rep conds (task.uuid :: seen) rest with
          | .error e => .error e
          | .ok l => .ok (task :: l)
        | .ok false => directFetch vt rep conds (task.uuid :: seen) rest

/-- The full-scan branch (`AllTasks`): filter the drained task map by
`match_task`. -/
def filterAll (vt : String → Bool) (conds : List Condition) :
    List (Uuid × Task) → Except CliError (List Task)
  | [] => .ok []
  | (_, task) :: rest =>
    match match_task_conds vt task conds with
    | .error e => .error e
    | .ok true =>
      match filterAll vt conds rest with
      | .error e => .error e
      | .ok l => .ok (task :: l)
    | .ok false => filterAll vt conds rest

/-- The working-set-scan branch (`PendingTasks`): skip empty slots, filter
occupied ones by `match_task`. -/
def filterWS (vt : String → Bool) (conds : List Condition) :
    List (Option Task) → Except CliError (List Task)
  | [] => .ok []
  | none :: rest => filterWS vt conds rest
  | some task :: rest =>
    match match_task_conds vt task conds with
    | .error e => .error e
    | .ok true =>
      match filterWS vt conds rest with
      | .error e => .error e
      | .ok l => .ok (task :: l)
    | .ok false => filterWS vt conds rest

/-- Rust `filtered_tasks(replica, filter)`: dispatch on the universe shape
and run the corresponding enumeration strategy. -/
def filtered_tasks (vt : String → Bool) (rep : Replica) (f : Filter) :
    Except CliError (List Task) :=
  match f.univ with
  | .IdList ids =>
    if ids.any is_partial_uuid then
      match rep.all_tasks with
      | .error e => .error (.store e)
      | .ok tasks => scanTasks vt rep ids f.conditions tasks
    else
      directFetch vt rep f.conditions [] ids
  | .AllTasks =>
    match rep.all_tasks with
    | .error e => .error (.store e)
    | .ok tasks => filterAll vt f.conditions tasks
  | .PendingTasks =>
    match rep.working_set with
    | .error e => .error (.store e)
    | .ok ws => filterWS vt f.conditions ws

/-- Pure meaning of one (valid-tag) condition on a task: `HasTag` requires
the tag, `NoTag` forbids it. -/
def evalCond (t : Task) : Condition → Bool
  | .HasTag s => t.has_tag s
  | .NoTag s => !(t.has_tag s)

/-- Pure meaning of the identifier test of the scan-and-match branch, with
the working-set index lookup replaced by a pure function `wsIdx`. -/
def idMatchesB (wsIdx : Uuid → Option Nat) (uuid : Uuid) : TaskId → Bool
  | .WorkingSetId i => wsIdx uuid == some i
  | .PartialUuid pre => strStartsWith uuid pre
  | .Uuid u => u == uuid

/-- All condition tag strings of a list pass validation `vt`. -/
def CondsValid (vt : String → Bool) (conds : List Condition) : Prop :=
  ∀ c ∈ conds, vt (condTag c) = true

/-- The replica operation `get_working_set_index` agrees with a pure index
function `wsIdx` (in particular it never fails). -/
def WsIdxOk (rep : Replica) (wsIdx : Uuid → Option Nat) : Prop :=
  ∀ u, rep.get_working_set_index u = .ok (wsIdx u)

lemma match_task_conds_eq_all (vt : String → Bool) (t : Task) :
    ∀ conds : List Condition, CondsValid vt conds →
      match_task_conds vt t conds = .ok (conds.all (evalCond t))
  | [], _ => rfl
  | c :: rest, h => by
    have hc : vt (condTag c) = true := h c (List.mem_cons_self _ _)
    have ih := match_task_conds_eq_all vt t rest
      (fun x hx => h x (List.mem_cons_of_mem _ hx))
    cases c with
    | HasTag s =>
      simp only [condTag] at hc
      simp only [match_task_conds, tagTryInto, hc, if_true]
      cases hht : t.has_tag s <;>
        simp [List.all_cons, evalCond, hht, ih]
    | NoTag s =>
      simp only [condTag] at hc
      simp only [match_task_conds, tagTryInto, hc, if_true]
      cases hht : t.has_tag s <;>
        simp [List.all_cons, evalCond, hht, ih]

lemma match_task_eq_all (vt : String → Bool) (f : Filter) (t : Task)
    (h : CondsValid vt f.conditions) :
    match_task vt f t = .ok (f.conditions.all (evalCond t)) :=
  match_task_conds_eq_all vt t f.conditions h

lemma match_task_conds_error_crash (vt : String → Bool) (t : Task) :
    ∀ conds e, match_task_conds vt t conds = .error e →
      ∃ s, e = CliError.crash s := by
  intro conds
  induction conds with
  | nil => intro e h; exact absurd h (by simp [match_task_conds])
  | cons c rest ih =>
    intro e h
    cases c with
    | HasTag s =>
      simp only [match_task_conds, tagTryInto] at h
      by_cases hv : vt s = true
      · rw [hv] at h
        simp only [if_true] at h
        cases hht : t.has_tag s <;> rw [hht] at h <;> simp at h
        exact ih e h
      · rw [Bool.not_eq_true] at hv
        rw [hv] at h
        simp at h
        exact ⟨s, h.symm⟩
    | NoTag s =>
      simp only [match_task_conds, tagTryInto] at h
      by_cases hv : vt s = true
      · rw [hv] at h
        simp only [if_true] at h
        cases hht : t.has_tag s <;> rw [hht] at h <;> simp at h
        exact ih e h
      · rw [Bool.not_eq_true] at hv
        rw [hv] at h
        simp at h
        exact ⟨s, h.symm⟩

lemma perm_all_eq {l1 l2 : List Condition} (p : Condition → Bool)
    (h : l1.Perm l2) : l1.all p = l2.all p := by
  cases h1 : l1.all p with
  | true =>
    symm
    rw [List.all_eq_true] at h1 ⊢
    intro x hx
    exact h1 x (h.mem_iff.mpr hx)
  | false =>
    symm
    rw [List.all_eq_false] at h1 ⊢
    obtain ⟨x, hx, hpx⟩ := h1
    exact ⟨x, h.mem_iff.mp hx, hpx⟩

lemma scanIds_some (vt : String → Bool) (rep : Replica)
    (conds : List Condition) (uuid : Uuid) (task : Task) :
    ∀ ids t, scanIds vt rep conds uuid task ids = .ok (some t) → t = task := by
  intro ids
  induction ids with
  | nil => intro t h; simp [scanIds] at h
  | cons id rest ih =>
    intro t h
    simp only [scanIds] at h
    cases hm : scanIdMatches rep uuid id with
    | error e => rw [hm] at h; simp at h
    | ok b =>
      rw [hm] at h
      cases b
      · exact ih t h
      · cases hmt : match_task_conds vt task conds with
        | error e => rw [hmt] at h; simp at h
        | ok b2 =>
          rw [hmt] at h
          cases b2
          · exact ih t h
          · simp at h; exact h.symm

lemma scanTasks_sublist (vt : String → Bool) (rep : Replica)
    (ids : List TaskId) (conds : List Condition) :
    ∀ tasks l, scanTasks vt rep ids conds tasks = .ok l →
      List.Sublist l (tasks.map Prod.snd) := by
  intro tasks
  induction tasks with
  | nil => intro l h; simp [scanTasks] at h; subst h; simp
  | cons p rest ih =>
    obtain ⟨uuid, task⟩ := p
    intro l h
    simp only [scanTasks] at h
    cases hs : scanIds vt rep conds uuid task ids with
    | error e => rw [hs] at h; simp at h
    | ok r =>
      rw [hs] at h
      cases r with
      | none => exact List.Sublist.cons _ (ih l h)
      | some t =>
        cases hr : scanTasks vt rep ids conds rest with
        | error e => rw [hr] at h; simp at h
        | ok l2 =>
          rw [hr] at h
          simp at h
          subst h
          have ht : t = task := scanIds_some vt rep conds uuid task ids t hs
          rw [ht]
          simp only [List.map_cons]
          exact List.Sublist.cons₂ _ (ih l2 hr)

lemma filterAll_sublist (vt : String → Bool) (conds : List Condition) :
    ∀ tasks l, filterAll vt conds tasks = .ok l →
      List.Sublist l (tasks.map Prod.snd) := by
  intro tasks
  induction tasks with
  | nil => intro l h; simp [filterAll] at h; subst h; simp
  | cons p rest ih =>
    obtain ⟨uuid, task⟩ := p
    intro l h
    simp only [filterAll] at h
    cases hmt : match_task_conds vt task conds with
    | error e => rw [hmt] at h; simp at h
    | ok b =>
      rw [hmt] at h
      cases b
      · exact List.Sublist.cons _ (ih l h)
      · cases hr : filterAll vt conds rest with
        | error e => rw [hr] at h; simp at h
        | ok l2 =>
          rw [hr] at h
          simp at h
          subst h
          simp only [List.map_cons]
          exact List.Sublist.cons₂ _ (ih l2 hr)

lemma filterWS_sublist (vt : String → Bool) (conds : List Condition) :
    ∀ ws l, filterWS vt conds ws = .ok l →
      List.Sublist l (ws.filterMap id) := by
  intro ws
  induction ws with
  | nil => intro l h; simp [filterWS] at h; subst h; simp
  | cons slot rest ih =>
    intro l h
    cases slot with
    | none =>
      simp only [filterWS] at h
      simpa using ih l h
    | some task =>
      simp only [filterWS] at h
      cases hmt : match_task_conds vt task conds with
      | error e => rw [hmt] at h; simp at h
      | ok b =>
        rw [hmt] at h
        cases b
        · exact List.Sublist.cons _ (ih l h)
        · cases hr : filterWS vt conds rest with
          | error e => rw [hr] at h; simp at h
          | ok l2 =>
            rw [hr] at h
            simp at h
            subst h
            simp only [List.filterMap_cons, id]
            exact List.Sublist.cons₂ _ (ih l2 hr)

lemma directFetch_nodup (vt : String → Bool) (rep : Replica)
    (conds : List Condition) :
    ∀ ids seen l, directFetch vt rep conds seen ids = .ok l →
      (l.map Task.uuid).Nodup ∧ ∀ t ∈ l, t.uuid ∉ seen := by
  intro ids
  induction ids with
  | nil => intro seen l h; simp [directFetch] at h; subst h; simp
  | cons id rest ih =>
    intro seen l h
    simp only [directFetch] at h
    cases hf : directFetchOne rep id with
    | error e => rw [hf] at h; simp at h
    | ok r =>
      rw [hf] at h
      cases r with
      | none => exact ih seen l h
      | some task =>
        simp only [] at h
        by_cases hseen : seen.contains task.uuid = true
        · rw [if_pos hseen] at h
          exact ih seen l h
        · rw [if_neg hseen] at h
          cases hmt : match_task_conds vt task conds with
          | error e => rw [hmt] at h; simp at h
          | ok b =>
            rw [hmt] at h
            cases b
            · have hih := ih (task.uuid :: seen) l h
              exact ⟨hih.1, fun t ht hmem =>
                hih.2 t ht (List.mem_cons_of_mem _ hmem)⟩
            · cases hr : directFetch vt rep conds (task.uuid :: seen) rest with
              | error e => rw [hr] at h; simp at h
              | ok l2 =>
                rw [hr] at h
                simp at h
                subst h
                have hih := ih (task.uuid :: seen) l2 hr
                constructor
                · rw [List.map_cons, List.nodup_cons]
                  refine ⟨fun hmem => ?_, hih.1⟩
                  obtain ⟨t, ht, huuid⟩ := List.mem_map.mp hmem
                  exact hih.2 t ht (huuid ▸ List.mem_cons_self _ _)
                · intro t ht
                  rcases List.mem_cons.mp ht with rfl | ht2
                  · intro hmem
                    exact hseen (List.elem_eq_true_of_mem hmem)
                  · exact fun hmem =>
                      hih.2 t ht2 (List.mem_cons_of_mem _ hmem)

lemma strStartsWith_empty (s : String) : strStartsWith s "" = true := by
  simp [strStartsWith]

lemma scanIdMatches_eq (rep : Replica) (wsIdx : Uuid → Option Nat)
    (hws : WsIdxOk rep wsIdx) (uuid : Uuid) (id : TaskId) :
    scanIdMatches rep uuid id = .ok (idMatchesB wsIdx uuid id) := by
  cases id with
  | WorkingSetId i => simp [scanIdMatches, hws uuid, idMatchesB]
  | PartialUuid pre => rfl
  | Uuid u => rfl

lemma scanIds_eq (vt : String → Bool) (rep : Replica) (conds : List Condition)
    (uuid : Uuid) (task : Task) (wsIdx : Uuid → Option Nat)
    (hws : WsIdxOk rep wsIdx) (hv : CondsValid vt conds) :
    ∀ ids, scanIds vt rep conds uuid task ids =
      .ok (if ids.any (idMatchesB wsIdx uuid) && conds.all (evalCond task)
           then some task else none) := by
  intro ids
  induction ids with
  | nil => simp [scanIds]
  | cons id rest ih =>
    have hmt := match_task_conds_eq_all vt task conds hv
    simp only [scanIds, scanIdMatches_eq rep wsIdx hws uuid id]
    cases hb : idMatchesB wsIdx uuid id with
    | false => simp [List.any_cons, hb, ih]
    | true =>
      cases hall : conds.all (evalCond task) with
      | true => simp [hmt, List.any_cons, hb, hall]
      | false => simp [hmt, List.any_cons, hb, hall, ih]

lemma scanTasks_eq (vt : String → Bool) (rep : Replica) (ids : List TaskId)
    (conds : List Condition) (wsIdx : Uuid → Option Nat)
    (hws : WsIdxOk rep wsIdx) (hv : CondsValid vt conds) :
    ∀ tasks, scanTasks vt rep ids conds tasks =
      .ok ((tasks.filter
        (fun p => ids.any (idMatchesB wsIdx p.1) &&
          conds.all (evalCond p.2))).map Prod.snd) := by
  intro tasks
  induction tasks with
  | nil => rfl
  | cons p rest ih =>
    obtain ⟨uuid, task⟩ := p
    simp only [scanTasks, scanIds_eq vt rep conds uuid task wsIdx hws hv ids]
    cases hc : ids.any (idMatchesB wsIdx uuid) && conds.all (evalCond task) with
    | true => simp [hc, ih, List.filter_cons]
    | false => simp [hc, ih, List.filter_cons]

lemma filterAll_eq (vt : String → Bool) (conds : List Condition)
    (hv : CondsValid vt conds) :
    ∀ tasks, filterAll vt conds tasks =
      .ok ((tasks.filter (fun p => conds.all (evalCond p.2))).map Prod.snd) := by
  intro tasks
  induction tasks with
  | nil => rfl
  | cons p rest ih =>
    obtain ⟨uuid, task⟩ := p
    have hmt := match_task_conds_eq_all vt task conds hv
    simp only [filterAll, hmt]
    cases hall : conds.all (evalCond task) with
    | true => simp [hall, ih, List.filter_cons]
    | false => simp [hall, ih, List.filter_cons]

lemma filterWS_eq (vt : String → Bool) (conds : List Condition)
    (hv : CondsValid vt conds) :
    ∀ ws, filterWS vt conds ws =
      .ok ((ws.filterMap id).filter (fun t => conds.all (evalCond t))) := by
  intro ws
  induction ws with
  | nil => rfl
  | cons slot rest ih =>
    cases slot with
    | none => simpa [filterWS] using ih
    | some task =>
      have hmt := match_task_conds_eq_all vt task conds hv
      simp only [filterWS, hmt]
      cases hall : conds.all (evalCond task) with
      | true => simp [hall, ih, List.filter_cons]
      | false => simp [hall, ih, List.filter_cons]

lemma scanIds_none_of_false (vt : String → Bool) (rep : Replica)
    (conds : List Condition) (uuid : Uuid) (task : Task)
    (wsIdx : Uuid → Option Nat) (hws : WsIdxOk rep wsIdx)
    (hmt : match_task_conds vt task conds = .ok false) :
    ∀ ids, scanIds vt rep conds uuid task ids = .ok none := by
  intro ids
  induction ids with
  | nil => rfl
  | cons id rest ih =>
    simp only [scanIds, scanIdMatches_eq rep wsIdx hws uuid id]
    cases hb : idMatchesB wsIdx uuid id with
    | false => simpa using ih
    | true => simp [hmt, ih]

lemma scanIds_empty_mem (vt : String → Bool) (rep : Replica)
    (conds : List Condition) (uuid : Uuid) (task : Task)
    (wsIdx : Uuid → Option Nat) (hws : WsIdxOk rep wsIdx) :
    ∀ ids, TaskId.PartialUuid "" ∈ ids →
      scanIds vt rep conds uuid task ids =
        (match match_task_conds vt task conds with
         | .error e => .error e
         | .ok true => .ok (some task)
         | .ok false => .ok none) := by
  intro ids
  induction ids with
  | nil => intro hmem; simp at hmem
  | cons id rest ih =>
    intro hmem
    simp only [scanIds, scanIdMatches_eq rep wsIdx hws uuid id]
    cases hb : idMatchesB wsIdx uuid id with
    | true =>
      cases hmt : match_task_conds vt task conds with
      | error e => simp [hmt]
      | ok b =>
        cases b
        · simp [hmt, scanIds_none_of_false vt rep conds uuid task wsIdx hws hmt]
        · simp [hmt]
    | false =>
      have hne : id ≠ TaskId.PartialUuid "" := by
        intro heq
        rw [heq] at hb
        rw [show idMatchesB wsIdx uuid (TaskId.PartialUuid "") =
              strStartsWith uuid "" from rfl, strStartsWith_empty] at hb
        simp at hb
      have hmem2 : TaskId.PartialUuid "" ∈ rest := by
        rcases List.mem_cons.mp hmem with heq | h2
        · exact absurd heq.symm hne
        · exact h2
      simpa using ih hmem2

lemma scanTasks_eq_filterAll (vt : String → Bool) (rep : Replica)
    (ids : List TaskId) (conds : List Condition)
    (wsIdx : Uuid → Option Nat) (hws : WsIdxOk rep wsIdx)
    (hmem : TaskId.PartialUuid "" ∈ ids) :
    ∀ tasks, scanTasks vt rep ids conds tasks = filterAll vt conds tasks := by
  intro tasks
  induction tasks with
  | nil => rfl
  | cons p rest ih =>
    obtain ⟨uuid, task⟩ := p
    simp only [scanTasks, filterAll,
      scanIds_empty_mem vt rep conds uuid task wsIdx hws ids hmem]
    cases hmt : match_task_conds vt task conds with
    | error e => simp [hmt]
    | ok b => cases b <;> simp [hmt, ih]

/-- A store error some operation of the replica can produce. -/
def Replica.producesErr (rep : Replica) (e : StoreError) : Prop :=
  rep.all_tasks = .error e ∨ rep.working_set = .error e ∨
  (∃ u, rep.get_task u = .error e) ∨
  (∃ i, rep.get_working_set_task i = .error e) ∨
  (∃ u, rep.get_working_set_index u = .error e)

/-- Every operation of the replica succeeds. -/
def Replica.Total (rep : Replica) : Prop :=
  (∃ l, rep.all_tasks = .ok l) ∧ (∃ ws, rep.working_set = .ok ws) ∧
  (∀ u, ∃ r, rep.get_task u = .ok r) ∧
  (∀ i, ∃ r, rep.get_working_set_task i = .ok r) ∧
  (∀ u, ∃ r, rep.get_working_set_index u = .ok r)

lemma scanIdMatches_store_error (rep : Replica) (uuid : Uuid) (id : TaskId)
    (e : StoreError) (h : scanIdMatches rep uuid id = .error (.store e)) :
    ∃ u, rep.get_working_set_index u = .error e := by
  cases id with
  | WorkingSetId i =>
    simp only [scanIdMatches] at h
    cases hr : rep.get_working_set_index uuid with
    | error e2 =>
      rw [hr] at h
      simp at h
      exact ⟨uuid, by rw [hr, h]⟩
    | ok r => rw [hr] at h; simp at h
  | PartialUuid pre => simp [scanIdMatches] at h
  | Uuid u => simp [scanIdMatches] at h

lemma scanIds_store_error (vt : String → Bool) (rep : Replica)
    (conds : List Condition) (uuid : Uuid) (task : Task) (e : StoreError) :
    ∀ ids, scanIds vt rep conds uuid task ids = .error (.store e) →
      ∃ u, rep.get_working_set_index u = .error e := by
  intro ids
  induction ids with
  | nil => intro h; simp [scanIds] at h
  | cons id rest ih =>
    intro h
    simp only [scanIds] at h
    cases hm : scanIdMatches rep uuid id with
    | error e2 =>
      rw [hm] at h
      simp at h
      exact scanIdMatches_store_error rep uuid id e (by rw [hm, h])
    | ok b =>
      rw [hm] at h
      cases b
      · exact ih h
      · cases hmt : match_task_conds vt task conds with
        | error e2 =>
          rw [hmt] at h
          simp at h
          obtain ⟨s, hs⟩ := match_task_conds_error_crash vt task conds e2 hmt
          rw [hs] at h
          simp at h
        | ok b2 =>
          rw [hmt] at h
          cases b2
          · exact ih h
          · simp at h

lemma scanTasks_store_error (vt : String → Bool) (rep : Replica)
    (ids : List TaskId) (conds : List Condition) (e : StoreError) :
    ∀ tasks, scanTasks vt rep ids conds tasks = .error (.store e) →
      ∃ u, rep.get_working_set_index u = .error e := by
  intro tasks
  induction tasks with
  | nil => intro h; simp [scanTasks] at h
  | cons p rest ih =>
    obtain ⟨uuid, task⟩ := p
    intro h
    simp only [scanTasks] at h
    cases hs : scanIds vt rep conds uuid task ids with
    | error e2 =>
      rw [hs] at h
      simp at h
      exact scanIds_store_error vt rep conds uuid task e ids (by rw [hs, h])
    | ok r =>
      rw [hs] at h
      cases r with
      | none => exact ih h
      | some t =>
        cases hr : scanTasks vt rep ids conds rest with
        | error e2 =>
          rw [hr] at h
          simp at h
          exact ih (by rw [hr, h])
        | ok l => rw [hr] at h; simp at h

lemma filterAll_store_error (vt : String → Bool) (conds : List Condition)
    (e : StoreError) :
    ∀ tasks, filterAll vt conds tasks = .error (.store e) → False := by
  intro tasks
  induction tasks with
  | nil => intro h; simp [filterAll] at h
  | cons p rest ih =>
    obtain ⟨uuid, task⟩ := p
    intro h
    simp only [filterAll] at h
    cases hmt : match_task_conds vt task conds with
    | error e2 =>
      rw [hmt] at h
      simp at h
      obtain ⟨s, hs⟩ := match_task_conds_error_crash vt task conds e2 hmt
      rw [hs] at h
      simp at h
    | ok b =>
      rw [hmt] at h
      cases b
      · exact ih h
      · cases hr : filterAll vt conds rest with
        | error e2 =>
          rw [hr] at h
          simp at h
          exact ih (by rw [hr, h])
        | ok l => rw [hr] at h; simp at h

lemma filterWS_store_error (vt : String → Bool) (conds : List Condition)
    (e : StoreError) :
    ∀ ws, filterWS vt conds ws = .error (.store e) → False := by
  intro ws
  induction ws with
  | nil => intro h; simp [filterWS] at h
  | cons slot rest ih =>
    intro h
    cases slot with
    | none => exact ih (by simpa [filterWS] using h)
    | some task =>
      simp only [filterWS] at h
      cases hmt : match_task_conds vt task conds with
      | error e2 =>
        rw [hmt] at h
        simp at h
        obtain ⟨s, hs⟩ := match_task_conds_error_crash vt task conds e2 hmt
        rw [hs] at h
        simp at h
      | ok b =>
        rw [hmt] at h
        cases b
        · exact ih h
        · cases hr : filterWS vt conds rest with
          | error e2 =>
            rw [hr] at h
            simp at h
            exact ih (by rw [hr, h])
          | ok l => rw [hr] at h; simp at h

lemma directFetchOne_store_error (rep : Replica) (id : TaskId)
    (e : StoreError) (h : directFetchOne rep id = .error (.store e)) :
    (∃ i, rep.get_working_set_task i = .error e) ∨
    (∃ u, rep.get_task u = .error e) := by
  cases id with
  | WorkingSetId i =>
    simp only [directFetchOne] at h
    cases hr : rep.get_working_set_task i with
    | error e2 =>
      rw [hr] at h
      simp at h
      exact Or.inl ⟨i, by rw [hr, h]⟩
    | ok r => rw [hr] at h; simp at h
  | PartialUuid pre => simp [directFetchOne] at h
  | Uuid u =>
    simp only [directFetchOne] at h
    cases hr : rep.get_task u with
    | error e2 =>
      rw [hr] at h
      simp at h
      exact Or.inr ⟨u, by rw [hr, h]⟩
    | ok r => rw [hr] at h; simp at h

lemma directFetch_store_error (vt : String → Bool) (rep : Replica)
    (conds : List Condition) (e : StoreError) :
    ∀ ids seen, directFetch vt rep conds seen ids = .error (.store e) →
      (∃ i, rep.get_working_set_task i = .error e) ∨
      (∃ u, rep.get_task u = .error e) := by
  intro ids
  induction ids with
  | nil => intro seen h; simp [directFetch] at h
  | cons id rest ih =>
    intro seen h
    simp only [directFetch] at h
    cases hf : directFetchOne rep id with
    | error e2 =>
      rw [hf] at h
      simp at h
      exact directFetchOne_store_error rep id e (by rw [hf, h])
    | ok r =>
      rw [hf] at h
      cases r with
      | none => exact ih seen h
      | some task =>
        simp only [] at h
        by_cases hseen : seen.contains task.uuid = true
        · rw [if_pos hseen] at h
          exact ih seen h
        · rw [if_neg hseen] at h
          cases hmt : match_task_conds vt task conds with
          | error e2 =>
            rw [hmt] at h
            simp at h
            obtain ⟨s, hs⟩ := match_task_conds_error_crash vt task conds e2 hmt
            rw [hs] at h
            simp at h
          | ok b =>
            rw [hmt] at h
            cases b
            · exact ih _ h
            · cases hr : directFetch vt rep conds (task.uuid :: seen) rest with
              | error e2 =>
                rw [hr] at h
                simp at h
                exact ih _ (by rw [hr, h])
              | ok l => rw [hr] at h; simp at h

lemma directFetch_ok (vt : String → Bool) (rep : Replica)
    (conds : List Condition) (htot : rep.Total) (hv : CondsValid vt conds) :
    ∀ ids seen, (∀ id ∈ ids, is_partial_uuid id = false) →
      ∃ l, directFetch vt rep conds seen ids = .ok l := by
  intro ids
  induction ids with
  | nil => intro seen _; exact ⟨[], rfl⟩
  | cons id rest ih =>
    intro seen hnp
    have hnp2 : ∀ i ∈ rest, is_partial_uuid i = false :=
      fun i hi => hnp i (List.mem_cons_of_mem _ hi)
    have hone : ∃ r, directFetchOne rep id = .ok r := by
      cases id with
      | WorkingSetId i =>
        obtain ⟨r, hr⟩ := htot.2.2.2.1 i
        exact ⟨r, by simp [directFetchOne, hr]⟩
      | PartialUuid pre =>
        exact absurd (hnp _ (List.mem_cons_self _ _)) (by simp [is_partial_uuid])
      | Uuid u =>
        obtain ⟨r, hr⟩ := htot.2.2.1 u
        exact ⟨r, by simp [directFetchOne, hr]⟩
    obtain ⟨r, hr⟩ := hone
    cases r with
    | none =>
      obtain ⟨l, hl⟩ := ih seen hnp2
      exact ⟨l, by simp only [directFetch, hr]; exact hl⟩
    | some task =>
      have hmt := match_task_conds_eq_all vt task conds hv
      by_cases hseen : seen.contains task.uuid = true
      · obtain ⟨l, hl⟩ := ih seen hnp2
        refine ⟨l, ?_⟩
        simp only [directFetch, hr]
        rw [if_pos hseen]
        exact hl
      · cases hall : conds.all (evalCond task) with
        | true =>
          obtain ⟨l, hl⟩ := ih (task.uuid :: seen) hnp2
          refine ⟨task :: l, ?_⟩
          simp only [directFetch, hr]
          rw [if_neg hseen, hmt, hall]
          simp [hl]
        | false =>
          obtain ⟨l, hl⟩ := ih (task.uuid :: seen) hnp2
          refine ⟨l, ?_⟩
          simp only [directFetch, hr]
          rw [if_neg hseen, hmt, hall]
          exact hl

lemma filtered_tasks_idlist_scan (vt : String → Bool) (rep : Replica)
    (ids : List TaskId) (conds : List Condition)
    (hp : ids.any is_partial_uuid = true) :
    filtered_tasks vt rep ⟨.IdList ids, conds⟩ =
      match rep.all_tasks with
      | .error e => .error (.store e)
      | .ok tasks => scanTasks vt rep ids conds tasks := by
  simp [filtered_tasks, hp]

lemma filtered_tasks_idlist_direct (vt : String → Bool) (rep : Replica)
    (ids : List TaskId) (conds : List Condition)
    (hp : ids.any is_partial_uuid = false) :
    filtered_tasks vt rep ⟨.IdList ids, conds⟩ =
      directFetch vt rep conds [] ids := by
  simp [filtered_tasks, hp]

lemma filterAll_nil (vt : String → Bool) (tasks : List (Uuid × Task)) :
    filterAll vt [] tasks = .ok (tasks.map Prod.snd) := by
  rw [filterAll_eq vt [] (fun c hc => absurd hc (List.not_mem_nil c)) tasks]
  simp

lemma filterWS_nil (vt : String → Bool) (ws : List (Option Task)) :
    filterWS vt [] ws = .ok (ws.filterMap id) := by
  rw [filterWS_eq vt [] (fun c hc => absurd hc (List.not_mem_nil c)) ws]
  simp

lemma nodup_of_sublist_snd (tasks : List (Uuid × Task)) (l : List Task)
    (hkeys : (tasks.map Prod.fst).Nodup)
    (hcorr : ∀ p ∈ tasks, (p.2).uuid = p.1)
    (hsub : List.Sublist l (tasks.map Prod.snd)) :
    (l.map Task.uuid).Nodup := by
  have hmap : (tasks.map Prod.snd).map Task.uuid = tasks.map Prod.fst := by
    rw [List.map_map]
    exact List.map_congr_left (fun p hp2 => hcorr p hp2)
  have hsub2 : List.Sublist (l.map Task.uuid) (tasks.map Prod.fst) := by
    rw [← hmap]
    exact List.Sublist.map Task.uuid hsub
  exact hkeys.sublist hsub2

/-- A validator accepting every tag string (used as witness data). -/
def vtAll : String → Bool := fun _ => true

/-- A validator rejecting every tag string (used to exhibit the behavior on
an invalid tag). -/
def vtNone : String → Bool := fun _ => false

/-- Witness data: a pending task tagged `yes`. -/
def taskA : Task := ⟨"aaa", .pending, ["yes"]⟩

/-- Witness data: a completed task tagged `yes` and `no`. -/
def taskB : Task := ⟨"bbb", .completed, ["yes", "no"]⟩

/-- Witness data: a pending task tagged `no`. -/
def taskC : Task := ⟨"ccc", .pending, ["no"]⟩

/-- Witness data: a store holding tasks A, B, C where A and C occupy
working-set slots 1 and 2. -/
def sampleReplica : Replica where
  all_tasks := .ok [("aaa", taskA), ("bbb", taskB), ("ccc", taskC)]
  working_set := .ok [none, some taskA, some taskC]
  get_task := fun u =>
    .ok (if u = "aaa" then some taskA else if u = "bbb" then some taskB
         else if u = "ccc" then some taskC else none)
  get_working_set_task := fun i =>
    .ok (if i = 1 then some taskA else if i = 2 then some taskC else none)
  get_working_set_index := fun u =>
    .ok (if u = "aaa" then some 1 else if u = "ccc" then some 2 else none)

/-- The pure working-set index map of `sampleReplica`. -/
def sampleWsIdx : Uuid → Option Nat := fun u =>
  if u = "aaa" then some 1 else if u = "ccc" then some 2 else none

/-- Witness data: an empty store. -/
def emptyStoreReplica : Replica where
  all_tasks := .ok []
  working_set := .ok []
  get_task := fun _ => .ok none
  get_working_set_task := fun _ => .ok none
  get_working_set_index := fun _ => .ok none

/-- Witness data: a store whose every operation fails with error code 7. -/
def failingReplica : Replica where
  all_tasks := .error ⟨7⟩
  working_set := .error ⟨7⟩
  get_task := fun _ => .error ⟨7⟩
  get_working_set_task := fun _ => .error ⟨7⟩
  get_working_set_index := fun _ => .error ⟨7⟩

/-- C1: for every successful call to `filtered_tasks`, the returned
sequence contains no two entries with the same task UUID, for every
universe shape — including `IdList` universes naming the same task several
times — given the store invariants that the drained task map is keyed by
the tasks' own UUIDs without duplicates and that the working-set slots
hold UUID-distinct tasks. -/
theorem c1_resolver_dedup (vt : String → Bool) (rep : Replica) (f : Filter)
    (l : List Task)
    (hat : ∀ tasks, rep.all_tasks = .ok tasks →
      (tasks.map Prod.fst).Nodup ∧ ∀ p ∈ tasks, (p.2).uuid = p.1)
    (hws : ∀ ws, rep.working_set = .ok ws →
      ((ws.filterMap id).map Task.uuid).Nodup)
    (h : filtered_tasks vt rep f = .ok l) :
    (l.map Task.uuid).Nodup := by
  obtain ⟨u, conds⟩ := f
  cases u with
  | IdList ids =>
    by_cases hp : ids.any is_partial_uuid = true
    · rw [filtered_tasks_idlist_scan vt rep ids conds hp] at h
      cases hat2 : rep.all_tasks with
      | error e => rw [hat2] at h; simp at h
      | ok tasks =>
        rw [hat2] at h
        obtain ⟨hkeys, hcorr⟩ := hat tasks hat2
        exact nodup_of_sublist_snd tasks l hkeys hcorr
          (scanTasks_sublist vt rep ids conds tasks l h)
    · rw [filtered_tasks_idlist_direct vt rep ids conds (by simpa using hp)] at h
      exact (directFetch_nodup vt rep conds ids [] l h).1
  | AllTasks =>
    simp only [filtered_tasks] at h
    cases hat2 : rep.all_tasks with
    | error e => rw [hat2] at h; simp at h
    | ok tasks =>
      rw [hat2] at h
      obtain ⟨hkeys, hcorr⟩ := hat tasks hat2
      exact nodup_of_sublist_snd tasks l hkeys hcorr
        (filterAll_sublist vt conds tasks l h)
  | PendingTasks =>
    simp only [filtered_tasks] at h
    cases hws2 : rep.working_set with
    | error e => rw [hws2] at h; simp at h
    | ok ws =>
      rw [hws2] at h
      exact (hws ws hws2).sublist
        (List.Sublist.map Task.uuid (filterWS_sublist vt conds ws l h))

theorem c1_witness : ([taskA, taskB].map Task.uuid).Nodup :=
  c1_resolver_dedup vtAll sampleReplica
    ⟨.IdList [TaskId.Uuid "aaa", TaskId.WorkingSetId 1, TaskId.Uuid "bbb"], []⟩
    [taskA, taskB]
    (fun tasks h => by
      simp only [sampleReplica] at h
      injection h with h
      subst h
      exact ⟨by decide, by decide⟩)
    (fun ws h => by
      simp only [sampleReplica] at h
      injection h with h
      subst h
      decide)
    rfl

/-- C2: the claim asks that an invalid condition tag fail the whole
resolution eagerly with a recoverable validation error, validated once per
condition.  The code instead converts the tag inside `match_task` with
`unwrap()`, per candidate task: with one task in the store the resolution
aborts with a crash (modeled as `CliError.crash`), and with an empty store
the invalid tag is never detected at all and resolution succeeds. -/
theorem c2_invalid_tag_crash :
    filtered_tasks vtNone sampleReplica
      ⟨.AllTasks, [Condition.HasTag "bad tag"]⟩ =
      .error (CliError.crash "bad tag") ∧
    filtered_tasks vtNone emptyStoreReplica
      ⟨.AllTasks, [Condition.HasTag "bad tag"]⟩ = .ok [] :=
  ⟨rfl, rfl⟩

/-- C3: with all condition tags valid, `match_task` returns `ok true` iff
the task carries every `HasTag` tag and none of the `NoTag` tags; the empty
condition list matches every task, and the overall value is the sequential
conjunction of the per-condition tests. -/
theorem c3_match_task_conjunction (vt : String → Bool) (u : Universe)
    (conds : List Condition) (t : Task) (hv : CondsValid vt conds) :
    (match_task vt ⟨u, conds⟩ t = .ok true ↔
      (∀ s, Condition.HasTag s ∈ conds → t.has_tag s = true) ∧
      (∀ s, Condition.NoTag s ∈ conds → t.has_tag s = false)) ∧
    match_task vt ⟨u, []⟩ t = .ok true ∧
    match_task vt ⟨u, conds⟩ t = .ok (conds.all (evalCond t)) := by
  have h1 := match_task_eq_all vt ⟨u, conds⟩ t hv
  refine ⟨?_, rfl, h1⟩
  rw [h1]
  constructor
  · intro h
    have hall : conds.all (evalCond t) = true := by
      injection h with h2
    rw [List.all_eq_true] at hall
    constructor
    · intro s hs
      simpa [evalCond] using hall _ hs
    · intro s hs
      simpa [evalCond] using hall _ hs
  · rintro ⟨hreq, hforb⟩
    have hall : conds.all (evalCond t) = true := by
      rw [List.all_eq_true]
      intro c hc
      cases c with
      | HasTag s => simpa [evalCond] using hreq s hc
      | NoTag s => simp [evalCond, hforb s hc]
    rw [hall]

theorem c3_witness :
    (match_task vtAll ⟨Universe.AllTasks, [Condition.HasTag "yes"]⟩ taskA =
        .ok true ↔
      (∀ s, Condition.HasTag s ∈ [Condition.HasTag "yes"] →
        taskA.has_tag s = true) ∧
      (∀ s, Condition.NoTag s ∈ [Condition.HasTag "yes"] →
        taskA.has_tag s = false)) ∧
    match_task vtAll ⟨Universe.AllTasks, []⟩ taskA = .ok true ∧
    match_task vtAll ⟨Universe.AllTasks, [Condition.HasTag "yes"]⟩ taskA =
      .ok ([Condition.HasTag "yes"].all (evalCond taskA)) :=
  c3_match_task_conjunction vtAll Universe.AllTasks [Condition.HasTag "yes"]
    taskA (fun _ _ => rfl)

/-- C4: for an `IdList` universe containing a partial id, with the store
enumeration succeeding, the working-set index lookups agreeing with a pure
map `wsIdx`, and all condition tags valid, the result is exactly the store
tasks matched by some listed identifier (working-set slot equality, textual
UUID prefix, or exact UUID, as defined by `idMatchesB` and `strStartsWith`)
that also satisfy the tag conditions, one pass in store order. -/
theorem c4_scan_and_match (vt : String → Bool) (rep : Replica)
    (ids : List TaskId) (conds : List Condition)
    (tasks : List (Uuid × Task)) (wsIdx : Uuid → Option Nat)
    (hp : ids.any is_partial_uuid = true)
    (hat : rep.all_tasks = .ok tasks)
    (hws : WsIdxOk rep wsIdx)
    (hv : CondsValid vt conds) :
    filtered_tasks vt rep ⟨.IdList ids, conds⟩ =
      .ok ((tasks.filter (fun p =>
        ids.any (idMatchesB wsIdx p.1) &&
          conds.all (evalCond p.2))).map Prod.snd) := by
  rw [filtered_tasks_idlist_scan vt rep ids conds hp, hat]
  exact scanTasks_eq vt rep ids conds wsIdx hws hv tasks

theorem c4_witness :
    filtered_tasks vtAll sampleReplica
      ⟨.IdList [TaskId.PartialUuid "bb"], []⟩ =
      .ok (([("aaa", taskA), ("bbb", taskB), ("ccc", taskC)].filter (fun p =>
        [TaskId.PartialUuid "bb"].any (idMatchesB sampleWsIdx p.1) &&
          List.all [] (evalCond p.2))).map Prod.snd) :=
  c4_scan_and_match vtAll sampleReplica [TaskId.PartialUuid "bb"] []
    [("aaa", taskA), ("bbb", taskB), ("ccc", taskC)] sampleWsIdx
    (by decide) rfl (fun u => rfl) (fun _ _ => rfl)

/-- C5: resolving `AllTasks` with no conditions returns every task of the
store (whatever its status), in store enumeration order; under the store
invariants it returns each exactly once. -/
theorem c5_alltasks_every_task (vt : String → Bool) (rep : Replica)
    (tasks : List (Uuid × Task))
    (hat : rep.all_tasks = .ok tasks)
    (hkeys : (tasks.map Prod.fst).Nodup)
    (hcorr : ∀ p ∈ tasks, (p.2).uuid = p.1) :
    filtered_tasks vt rep ⟨.AllTasks, []⟩ = .ok (tasks.map Prod.snd) ∧
    ∀ t ∈ tasks.map Prod.snd, (tasks.map Prod.snd).count t = 1 := by
  constructor
  · simp only [filtered_tasks, hat]
    exact filterAll_nil vt tasks
  · have hmap : (tasks.map Prod.snd).map Task.uuid = tasks.map Prod.fst := by
      rw [List.map_map]
      exact List.map_congr_left (fun p hp2 => hcorr p hp2)
    have hnd : (tasks.map Prod.snd).Nodup := by
      have h2 : ((tasks.map Prod.snd).map Task.uuid).Nodup := by
        rw [hmap]; exact hkeys
      exact h2.of_map
    intro t ht
    exact List.count_eq_one_of_mem hnd ht

theorem c5_witness :
    filtered_tasks vtAll sampleReplica ⟨.AllTasks, []⟩ =
      .ok ([("aaa", taskA), ("bbb", taskB), ("ccc", taskC)].map Prod.snd) ∧
    ∀ t ∈ [("aaa", taskA), ("bbb", taskB), ("ccc", taskC)].map Prod.snd,
      ([("aaa", taskA), ("bbb", taskB), ("ccc", taskC)].map Prod.snd).count t
        = 1 :=
  c5_alltasks_every_task vtAll sampleReplica
    [("aaa", taskA), ("bbb", taskB), ("ccc", taskC)] rfl (by decide) (by decide)

/-- C6: resolving `PendingTasks` with no conditions enumerates the
working-set view once, skipping empty slots, and returns exactly the tasks
occupying slots; with UUID-distinct slots, each exactly once. -/
theorem c6_pending_workingset_scan (vt : String → Bool) (rep : Replica)
    (ws : List (Option Task))
    (hws : rep.working_set = .ok ws)
    (hnd : ((ws.filterMap id).map Task.uuid).Nodup) :
    filtered_tasks vt rep ⟨.PendingTasks, []⟩ = .ok (ws.filterMap id) ∧
    ∀ t ∈ ws.filterMap id, (ws.filterMap id).count t = 1 := by
  constructor
  · simp only [filtered_tasks, hws]
    exact filterWS_nil vt ws
  · intro t ht
    exact List.count_eq_one_of_mem hnd.of_map ht

theorem c6_witness :
    filtered_tasks vtAll sampleReplica ⟨.PendingTasks, []⟩ =
      .ok ([none, some taskA, some taskC].filterMap id) ∧
    ∀ t ∈ [none, some taskA, some taskC].filterMap id,
      ([none, some taskA, some taskC].filterMap id).count t = 1 :=
  c6_pending_workingset_scan vtAll sampleReplica
    [none, some taskA, some taskC] rfl (by decide)

lemma filtered_tasks_store_provenance (vt : String → Bool) (rep : Replica)
    (f : Filter) (e : StoreError)
    (h : filtered_tasks vt rep f = .error (CliError.store e)) :
    rep.producesErr e := by
  obtain ⟨u, conds⟩ := f
  cases u with
  | IdList ids =>
    by_cases hp : ids.any is_partial_uuid = true
    · rw [filtered_tasks_idlist_scan vt rep ids conds hp] at h
      cases hat : rep.all_tasks with
      | error e2 =>
        rw [hat] at h
        simp at h
        exact Or.inl (by rw [hat, h])
      | ok tasks =>
        rw [hat] at h
        obtain ⟨uu, huu⟩ := scanTasks_store_error vt rep ids conds e tasks h
        exact Or.inr (Or.inr (Or.inr (Or.inr ⟨uu, huu⟩)))
    · rw [filtered_tasks_idlist_direct vt rep ids conds (by simpa using hp)] at h
      rcases directFetch_store_error vt rep conds e ids [] h with hi | hu
      · exact Or.inr (Or.inr (Or.inr (Or.inl hi)))
      · exact Or.inr (Or.inr (Or.inl hu))
  | AllTasks =>
    simp only [filtered_tasks] at h
    cases hat : rep.all_tasks with
    | error e2 =>
      rw [hat] at h
      simp at h
      exact Or.inl (by rw [hat, h])
    | ok tasks =>
      rw [hat] at h
      exact (filterAll_store_error vt conds e tasks h).elim
  | PendingTasks =>
    simp only [filtered_tasks] at h
    cases hws : rep.working_set with
    | error e2 =>
      rw [hws] at h
      simp at h
      exact Or.inr (Or.inl (by rw [hws, h]))
    | ok ws =>
      rw [hws] at h
      exact (filterWS_store_error vt conds e ws h).elim

lemma scanIds_append (vt : String → Bool) (rep : Replica)
    (conds : List Condition) (uuid : Uuid) (task : Task) :
    ∀ pre suf, scanIds vt rep conds uuid task (pre ++ suf) =
      (match scanIds vt rep conds uuid task pre with
       | .error e => .error e
       | .ok (some t) => .ok (some t)
       | .ok none => scanIds vt rep conds uuid task suf) := by
  intro pre suf
  induction pre with
  | nil => simp [scanIds]
  | cons id pre2 ih =>
    simp only [List.cons_append, scanIds]
    cases hm : scanIdMatches rep uuid id with
    | error e => simp [hm]
    | ok b =>
      cases b with
      | false => simp [hm, ih]
      | true =>
        cases hmt : match_task_conds vt task conds with
        | error e => simp [hm, hmt]
        | ok b2 =>
          cases b2 with
          | true => simp [hm, hmt]
          | false => simp [hm, hmt, ih]

lemma scanTasks_append (vt : String → Bool) (rep : Replica)
    (ids : List TaskId) (conds : List Condition) :
    ∀ pre suf, scanTasks vt rep ids conds (pre ++ suf) =
      (match scanTasks vt rep ids conds pre with
       | .error e => .error e
       | .ok l =>
         match scanTasks vt rep ids conds suf with
         | .error e => .error e
         | .ok l2 => .ok (l ++ l2)) := by
  intro pre suf
  induction pre with
  | nil =>
    simp only [List.nil_append, scanTasks]
    cases hr : scanTasks vt rep ids conds suf <;> simp [hr]
  | cons p pre2 ih =>
    obtain ⟨uuid, task⟩ := p
    simp only [List.cons_append, scanTasks]
    cases hs : scanIds vt rep conds uuid task ids with
    | error e => simp [hs]
    | ok r =>
      cases r with
      | none => simp [hs, ih]
      | some t =>
        cases h1 : scanTasks vt rep ids conds pre2 <;>
          cases h2 : scanTasks vt rep ids conds suf <;>
            simp [List.append_eq, hs, h1, h2, ih]

lemma directFetch_append_ok (vt : String → Bool) (rep : Replica)
    (conds : List Condition) :
    ∀ pre seen l, directFetch vt rep conds seen pre = .ok l →
      ∃ seen2, ∀ suffix, directFetch vt rep conds seen (pre ++ suffix) =
        (match directFetch vt rep conds seen2 suffix with
         | .error e => .error e
         | .ok l2 => .ok (l ++ l2)) := by
  intro pre
  induction pre with
  | nil =>
    intro seen l h
    simp only [directFetch] at h
    injection h with h
    subst h
    refine ⟨seen, fun suffix => ?_⟩
    simp only [List.nil_append]
    cases hr : directFetch vt rep conds seen suffix <;> simp [hr]
  | cons id pre2 ih =>
    intro seen l h
    simp only [directFetch] at h
    cases hf : directFetchOne rep id with
    | error e => rw [hf] at h; simp at h
    | ok r =>
      rw [hf] at h
      cases r with
      | none =>
        obtain ⟨seen2, hs⟩ := ih seen l h
        refine ⟨seen2, fun suffix => ?_⟩
        simp only [List.cons_append, directFetch, hf]
        exact hs suffix
      | some task =>
        simp only [] at h
        by_cases hseen : seen.contains task.uuid = true
        · rw [if_pos hseen] at h
          obtain ⟨seen2, hs⟩ := ih seen l h
          refine ⟨seen2, fun suffix => ?_⟩
          simp only [List.cons_append, directFetch, hf]
          rw [if_pos hseen]
          exact hs suffix
        · rw [if_neg hseen] at h
          cases hmt : match_task_conds vt task conds with
          | error e => rw [hmt] at h; simp at h
          | ok b =>
            rw [hmt] at h
            cases b with
            | false =>
              obtain ⟨seen2, hs⟩ := ih (task.uuid :: seen) l h
              refine ⟨seen2, fun suffix => ?_⟩
              simp only [List.cons_append, directFetch, hf]
              rw [if_neg hseen, hmt]
              exact hs suffix
            | true =>
              cases hr : directFetch vt rep conds (task.uuid :: seen) pre2 with
              | error e => rw [hr] at h; simp at h
              | ok l2 =>
                rw [hr] at h
                simp at h
                subst h
                obtain ⟨seen2, hs⟩ := ih (task.uuid :: seen) l2 hr
                refine ⟨seen2, fun suffix => ?_⟩
                simp only [List.cons_append, directFetch, hf]
                rw [if_neg hseen, hmt]
                cases hr2 : directFetch vt rep conds seen2 suffix <;>
                  simp [List.append_eq, hs suffix, hr2]

lemma directFetch_fetch_error (vt : String → Bool) (rep : Replica)
    (conds : List Condition) (id : TaskId) (rest : List TaskId)
    (seen : List Uuid) (ce : CliError)
    (hf : directFetchOne rep id = .error ce) :
    directFetch vt rep conds seen (id :: rest) = .error ce := by
  simp [directFetch, hf]

lemma directFetchOne_uuid_error (rep : Replica) (u : Uuid) (e : StoreError)
    (h : rep.get_task u = .error e) :
    directFetchOne rep (TaskId.Uuid u) = .error (.store e) := by
  simp [directFetchOne, h]

lemma directFetchOne_slot_error (rep : Replica) (i : Nat) (e : StoreError)
    (h : rep.get_working_set_task i = .error e) :
    directFetchOne rep (TaskId.WorkingSetId i) = .error (.store e) := by
  simp [directFetchOne, h]

lemma scanIds_wsindex_error (vt : String → Bool) (rep : Replica)
    (conds : List Condition) (uuid : Uuid) (task : Task) (i : Nat)
    (idsRest : List TaskId) (e : StoreError)
    (h : rep.get_working_set_index uuid = .error e) :
    scanIds vt rep conds uuid task (TaskId.WorkingSetId i :: idsRest) =
      .error (.store e) := by
  simp [scanIds, scanIdMatches, h]

/-- Witness data: a store failing only on exact-identifier lookups. -/
def getTaskFailReplica : Replica where
  all_tasks := .ok [("aaa", taskA)]
  working_set := .ok [none, some taskA]
  get_task := fun _ => .error ⟨3⟩
  get_working_set_task := fun _ => .ok none
  get_working_set_index := fun _ => .ok none

/-- Witness data: a store failing only on slot lookups. -/
def slotFailReplica : Replica where
  all_tasks := .ok [("aaa", taskA)]
  working_set := .ok [none, some taskA]
  get_task := fun _ => .ok none
  get_working_set_task := fun _ => .error ⟨4⟩
  get_working_set_index := fun _ => .ok none

/-- Witness data: a store failing only on slot-of-identifier lookups. -/
def wsIdxFailReplica : Replica where
  all_tasks := .ok [("aaa", taskA)]
  working_set := .ok [none, some taskA]
  get_task := fun _ => .ok none
  get_working_set_task := fun _ => .ok none
  get_working_set_index := fun _ => .error ⟨5⟩

/-- C7: whenever a store call performed during a resolution fails, the
resolver aborts the resolution at that point and returns exactly that
error (wrapped as a store error), never an `ok` result: this is stated
for each of the five operations at the point of the strategy where the
code performs it — `all_tasks` for the full scan and the scan-and-match
branch, `working_set` for the working-set scan, `get_task` and
`get_working_set_task` for a direct-fetch list whose identifiers before
the failing one were processed successfully, and
`get_working_set_index` for a scan that reaches a candidate task and a
`WorkingSetId` identifier after the preceding tasks and identifiers
produced no failure.  Conversely, a store-error result always carries an
error some replica operation produced, so errors are propagated verbatim
and (by the result type) no partial result accompanies them. -/
theorem c7_store_failure_aborts (vt : String → Bool) (rep : Replica) :
    (∀ conds e, rep.all_tasks = .error e →
      filtered_tasks vt rep ⟨.AllTasks, conds⟩ = .error (.store e)) ∧
    (∀ ids conds e, ids.any is_partial_uuid = true →
      rep.all_tasks = .error e →
      filtered_tasks vt rep ⟨.IdList ids, conds⟩ = .error (.store e)) ∧
    (∀ conds e, rep.working_set = .error e →
      filtered_tasks vt rep ⟨.PendingTasks, conds⟩ = .error (.store e)) ∧
    (∀ pre u rest conds e,
      (pre ++ TaskId.Uuid u :: rest).any is_partial_uuid = false →
      (∃ l, directFetch vt rep conds [] pre = .ok l) →
      rep.get_task u = .error e →
      filtered_tasks vt rep ⟨.IdList (pre ++ TaskId.Uuid u :: rest), conds⟩ =
        .error (.store e)) ∧
    (∀ pre i rest conds e,
      (pre ++ TaskId.WorkingSetId i :: rest).any is_partial_uuid = false →
      (∃ l, directFetch vt rep conds [] pre = .ok l) →
      rep.get_working_set_task i = .error e →
      filtered_tasks vt rep
        ⟨.IdList (pre ++ TaskId.WorkingSetId i :: rest), conds⟩ =
        .error (.store e)) ∧
    (∀ ids idsPre i idsRest tasksPre uuid task tasksRest conds e,
      ids = idsPre ++ TaskId.WorkingSetId i :: idsRest →
      ids.any is_partial_uuid = true →
      rep.all_tasks = .ok (tasksPre ++ (uuid, task) :: tasksRest) →
      (∃ l, scanTasks vt rep ids conds tasksPre = .ok l) →
      scanIds vt rep conds uuid task idsPre = .ok none →
      rep.get_working_set_index uuid = .error e →
      filtered_tasks vt rep ⟨.IdList ids, conds⟩ = .error (.store e)) ∧
    (∀ f e, filtered_tasks vt rep f = .error (CliError.store e) →
      rep.producesErr e) := by
  refine ⟨?_, ?_, ?_, ?_, ?_, ?_, ?_⟩
  · intro conds e h
    simp [filtered_tasks, h]
  · intro ids conds e hp h
    rw [filtered_tasks_idlist_scan vt rep ids conds hp]
    simp [h]
  · intro conds e h
    simp [filtered_tasks, h]
  · intro pre u rest conds e hnp hpre hu
    rw [filtered_tasks_idlist_direct vt rep _ conds hnp]
    obtain ⟨l, hl⟩ := hpre
    obtain ⟨seen2, hs⟩ := directFetch_append_ok vt rep conds pre [] l hl
    rw [hs (TaskId.Uuid u :: rest),
      directFetch_fetch_error vt rep conds _ rest seen2 _
        (directFetchOne_uuid_error rep u e hu)]
  · intro pre i rest conds e hnp hpre hi
    rw [filtered_tasks_idlist_direct vt rep _ conds hnp]
    obtain ⟨l, hl⟩ := hpre
    obtain ⟨seen2, hs⟩ := directFetch_append_ok vt rep conds pre [] l hl
    rw [hs (TaskId.WorkingSetId i :: rest),
      directFetch_fetch_error vt rep conds _ rest seen2 _
        (directFetchOne_slot_error rep i e hi)]
  · intro ids idsPre i idsRest tasksPre uuid task tasksRest conds e
      hidseq hp hat hpre hnone hwserr
    subst hidseq
    rw [filtered_tasks_idlist_scan vt rep _ conds hp]
    simp only [hat]
    rw [scanTasks_append vt rep _ conds tasksPre ((uuid, task) :: tasksRest)]
    obtain ⟨l, hl⟩ := hpre
    have hscan : scanTasks vt rep
        (idsPre ++ TaskId.WorkingSetId i :: idsRest) conds
        ((uuid, task) :: tasksRest) = .error (.store e) := by
      simp only [scanTasks,
        scanIds_append vt rep conds uuid task idsPre
          (TaskId.WorkingSetId i :: idsRest),
        hnone,
        scanIds_wsindex_error vt rep conds uuid task i idsRest e hwserr]
    simp [hl, hscan]
  · exact filtered_tasks_store_provenance vt rep

theorem c7_witness :
    filtered_tasks vtAll failingReplica ⟨.AllTasks, []⟩ =
      .error (.store ⟨7⟩) ∧
    filtered_tasks vtAll failingReplica
      ⟨.IdList [TaskId.PartialUuid "a"], []⟩ = .error (.store ⟨7⟩) ∧
    filtered_tasks vtAll failingReplica ⟨.PendingTasks, []⟩ =
      .error (.store ⟨7⟩) ∧
    filtered_tasks vtAll getTaskFailReplica
      ⟨.IdList [TaskId.Uuid "aaa"], []⟩ = .error (.store ⟨3⟩) ∧
    filtered_tasks vtAll slotFailReplica
      ⟨.IdList [TaskId.WorkingSetId 1], []⟩ = .error (.store ⟨4⟩) ∧
    filtered_tasks vtAll wsIdxFailReplica
      ⟨.IdList [TaskId.WorkingSetId 1, TaskId.PartialUuid "zz"], []⟩ =
      .error (.store ⟨5⟩) ∧
    failingReplica.producesErr ⟨7⟩ := by
  refine ⟨?_, ?_, ?_, ?_, ?_, ?_, ?_⟩
  · exact (c7_store_failure_aborts vtAll failingReplica).1 [] ⟨7⟩ rfl
  · exact (c7_store_failure_aborts vtAll failingReplica).2.1
      [TaskId.PartialUuid "a"] [] ⟨7⟩ rfl rfl
  · exact (c7_store_failure_aborts vtAll failingReplica).2.2.1 [] ⟨7⟩ rfl
  · exact (c7_store_failure_aborts vtAll getTaskFailReplica).2.2.2.1
      [] "aaa" [] [] ⟨3⟩ rfl ⟨[], rfl⟩ rfl
  · exact (c7_store_failure_aborts vtAll slotFailReplica).2.2.2.2.1
      [] 1 [] [] ⟨4⟩ rfl ⟨[], rfl⟩ rfl
  · exact (c7_store_failure_aborts vtAll wsIdxFailReplica).2.2.2.2.2.1
      [TaskId.WorkingSetId 1, TaskId.PartialUuid "zz"] [] 1
      [TaskId.PartialUuid "zz"] [] "aaa" taskA [] [] ⟨5⟩
      rfl rfl rfl ⟨[], rfl⟩ rfl rfl
  · exact (c7_store_failure_aborts vtAll failingReplica).2.2.2.2.2.2
      ⟨.AllTasks, []⟩ ⟨7⟩ rfl

/-- C8: identifier mismatches are not errors: an empty `IdList` resolves to
an empty result even against a store whose every operation fails (no store
access beyond dispatch); a `Uuid` id absent from the store and a
`WorkingSetId` naming an empty slot contribute no tasks and leave
resolution successful; and with a fully functioning store and valid
condition tags, resolution of any `IdList` succeeds. -/
theorem c8_mismatches_not_errors (vt : String → Bool)
    (repAny rep : Replica) (ids : List TaskId) (conds : List Condition)
    (u : Uuid) (i : Nat)
    (htot : rep.Total) (hv : CondsValid vt conds)
    (hget : rep.get_task u = .ok none)
    (hslot : rep.get_working_set_task i = .ok none) :
    filtered_tasks vt repAny ⟨.IdList [], conds⟩ = .ok [] ∧
    filtered_tasks vt rep ⟨.IdList [TaskId.Uuid u], conds⟩ = .ok [] ∧
    filtered_tasks vt rep ⟨.IdList [TaskId.WorkingSetId i], conds⟩ = .ok [] ∧
    ∃ l, filtered_tasks vt rep ⟨.IdList ids, conds⟩ = .ok l := by
  refine ⟨?_, ?_, ?_, ?_⟩
  · rw [filtered_tasks_idlist_direct vt repAny [] conds rfl]
    rfl
  · rw [filtered_tasks_idlist_direct vt rep [TaskId.Uuid u] conds
      (by simp [is_partial_uuid])]
    simp [directFetch, directFetchOne, hget]
  · rw [filtered_tasks_idlist_direct vt rep [TaskId.WorkingSetId i] conds
      (by simp [is_partial_uuid])]
    simp [directFetch, directFetchOne, hslot]
  · by_cases hp : ids.any is_partial_uuid = true
    · obtain ⟨tasks, hat⟩ := htot.1
      choose wsIdx hwsf using htot.2.2.2.2
      refine ⟨(tasks.filter (fun p => ids.any (idMatchesB wsIdx p.1) &&
        conds.all (evalCond p.2))).map Prod.snd, ?_⟩
      rw [filtered_tasks_idlist_scan vt rep ids conds hp, hat]
      exact scanTasks_eq vt rep ids conds wsIdx hwsf hv tasks
    · rw [filtered_tasks_idlist_direct vt rep ids conds (by simpa using hp)]
      have hnp : ∀ id ∈ ids, is_partial_uuid id = false := by
        intro id hid
        by_contra hcon
        exact hp (List.any_eq_true.mpr ⟨id, hid, by simpa using hcon⟩)
      exact directFetch_ok vt rep conds htot hv ids [] hnp

theorem c8_witness :
    filtered_tasks vtAll failingReplica ⟨.IdList [], []⟩ = .ok [] ∧
    filtered_tasks vtAll sampleReplica
      ⟨.IdList [TaskId.Uuid "zzz"], []⟩ = .ok [] ∧
    filtered_tasks vtAll sampleReplica
      ⟨.IdList [TaskId.WorkingSetId 9], []⟩ = .ok [] ∧
    ∃ l, filtered_tasks vtAll sampleReplica
      ⟨.IdList [TaskId.Uuid "zzz", TaskId.PartialUuid "zz"], []⟩ = .ok l :=
  c8_mismatches_not_errors vtAll failingReplica sampleReplica
    [TaskId.Uuid "zzz", TaskId.PartialUuid "zz"] [] "zzz" 9
    ⟨⟨_, rfl⟩, ⟨_, rfl⟩, fun _ => ⟨_, rfl⟩, fun _ => ⟨_, rfl⟩, fun _ => ⟨_, rfl⟩⟩
    (fun _ _ => rfl) rfl rfl

/-- C9: with all condition tags valid, permuting the condition sequence
(and independently changing the universe, which `match_task` ignores) never
changes the result of `match_task`. -/
theorem c9_condition_order_irrelevant (vt : String → Bool)
    (u1 u2 : Universe) (cs1 cs2 : List Condition) (t : Task)
    (hperm : cs1.Perm cs2) (hv : CondsValid vt cs1) :
    match_task vt ⟨u1, cs1⟩ t = match_task vt ⟨u2, cs2⟩ t := by
  have hv2 : CondsValid vt cs2 := fun c hc => hv c (hperm.mem_iff.mpr hc)
  rw [match_task_eq_all vt ⟨u1, cs1⟩ t hv,
    match_task_eq_all vt ⟨u2, cs2⟩ t hv2]
  exact congrArg Except.ok (perm_all_eq (evalCond t) hperm)

theorem c9_witness :
    match_task vtAll
      ⟨Universe.AllTasks, [Condition.HasTag "yes", Condition.NoTag "no"]⟩
      taskA =
    match_task vtAll
      ⟨Universe.PendingTasks, [Condition.NoTag "no", Condition.HasTag "yes"]⟩
      taskA :=
  c9_condition_order_irrelevant vtAll Universe.AllTasks Universe.PendingTasks
    [Condition.HasTag "yes", Condition.NoTag "no"]
    [Condition.NoTag "no", Condition.HasTag "yes"] taskA
    (List.Perm.swap _ _ _) (fun _ _ => rfl)

/-- C10: the empty string is a prefix of every textual UUID, so a
`PartialUuid ""` in an `IdList` matches every store task and resolution of
that list coincides with resolution of the `AllTasks` universe under the
same conditions (given working-set index lookups that do not fail). -/
theorem c10_empty_prefix_matches_all (vt : String → Bool) (rep : Replica)
    (ids : List TaskId) (conds : List Condition) (wsIdx : Uuid → Option Nat)
    (hmem : TaskId.PartialUuid "" ∈ ids)
    (hws : WsIdxOk rep wsIdx) :
    (∀ uuid : Uuid, strStartsWith uuid "" = true) ∧
    filtered_tasks vt rep ⟨.IdList ids, conds⟩ =
      filtered_tasks vt rep ⟨.AllTasks, conds⟩ := by
  refine ⟨strStartsWith_empty, ?_⟩
  have hp : ids.any is_partial_uuid = true :=
    List.any_eq_true.mpr ⟨_, hmem, rfl⟩
  rw [filtered_tasks_idlist_scan vt rep ids conds hp]
  simp only [filtered_tasks]
  cases hat : rep.all_tasks with
  | error e => rfl
  | ok tasks =>
    exact scanTasks_eq_filterAll vt rep ids conds wsIdx hws hmem tasks

theorem c10_witness :
    (∀ uuid : Uuid, strStartsWith uuid "" = true) ∧
    filtered_tasks vtAll sampleReplica
      ⟨.IdList [TaskId.PartialUuid ""], [Condition.HasTag "yes"]⟩ =
      filtered_tasks vtAll sampleReplica
        ⟨.AllTasks, [Condition.HasTag "yes"]⟩ :=
  c10_empty_prefix_matches_all vtAll sampleReplica [TaskId.PartialUuid ""]
    [Condition.HasTag "yes"] sampleWsIdx (by simp) (fun u => rfl)

end TC
